import Mathlib

/-!
Shallow embedding of the core of the `mcp-code-executor` repository:
the MCP server registry (`src/mcp/client.ts`), the call interceptor and
bridge (`src/bridge/call-interceptor.ts`, `src/bridge/mcp-bridge.ts`) and
the Deno sandbox executor (`src/runtime/deno-executor.ts`).

JavaScript `Map` objects are modelled as association lists with
insertion-order semantics (`mapGet`, `mapSet`, `mapDelete`), promises as
total functions (a promise that may reject is an `Except`), and the
external world (transports, subprocesses, the file system, clocks) as
explicit oracle arguments.
-/

namespace MCE

/-- Error values thrown by the program, one constructor per error class of
`src/types/errors.ts` that the modelled code paths construct.  The optional
`cause` chaining of the TS classes is abstracted away; the message and the
structured discriminating fields are kept. -/
inductive Err where
  | connectionError (message : String) (serverId : Option String)
  | schemaError (message : String)
  | runtimeError (message : String)
  | securityError (message : String) (violationType : String)
  | validationError (message : String) (field : String)
  deriving DecidableEq, Repr

/-- Dynamic JS values flowing through tool calls.  `undef` models
JavaScript `undefined` (e.g. `args[0]` of an empty argument list). -/
inductive Value where
  | undef
  | str (s : String)
  | num (n : Int)
  deriving DecidableEq, Repr

/-- `ToolSchema` of `src/types/index.ts` — the `inputSchema` JSON payload is
carried opaquely (it is never inspected by the modelled code). -/
structure ToolSchema where
  name : String
  description : String
  inputSchema : String
  serverId : String
  deriving DecidableEq, Repr

/-- `MCPServerConfig` of `src/types/index.ts`. -/
structure MCPServerConfig where
  id : String
  url : String
  timeout : Option Nat
  retries : Option Nat
  displayName : Option String
  deriving DecidableEq, Repr

/-! ### JavaScript `Map` as an association list -/

/-- `Map.get`. -/
def mapGet (m : List (String × α)) (k : String) : Option α :=
  match m with
  | [] => none
  | (k', v) :: rest => if k' = k then some v else mapGet rest k

/-- `Map.set`: updates an existing key in place, otherwise appends
(insertion-order semantics of JS `Map`). -/
def mapSet (m : List (String × α)) (k : String) (v : α) : List (String × α) :=
  match m with
  | [] => [(k, v)]
  | (k', v') :: rest => if k' = k then (k, v) :: rest else (k', v') :: mapSet rest k v

/-- `Map.has`. -/
def mapHas (m : List (String × α)) (k : String) : Bool :=
  (mapGet m k).isSome

/-! ### Server registry (`MCPRegistry`, `src/mcp/client.ts`)

A registry state carries the three `Map`s of the class.  A client is
represented by its server id together with its `connected` flag; the
network side of `MCPClient` (transport, RPC, retries) is abstracted as an
oracle handed to the operations that use it. -/

/-- The mutable state of an `MCPRegistry` instance: `clients` (server id →
`connected` flag of the owned `MCPClient`), `serverConfigs`, and
`toolSchemas` (flattened tool name → schema map). -/
structure RegState where
  clients : List (String × Bool)
  serverConfigs : List (String × MCPServerConfig)
  toolSchemas : List (String × ToolSchema)
  deriving DecidableEq, Repr

/-- `MCPRegistry.addServer`: throwing is modelled by returning the thrown
error next to the (unmodified) state, since a TS method can in principle
mutate before throwing. -/
def addServer (st : RegState) (config : MCPServerConfig) : Option Err × RegState :=
  if mapHas st.serverConfigs config.id then
    (some (.connectionError
      ("Server with ID " ++ config.id ++ " already exists in registry")
      (some config.id)), st)
  else
    (none,
      { st with
        serverConfigs := mapSet st.serverConfigs config.id config
        clients := mapSet st.clients config.id false })

/-- `MCPRegistry.resolveToolName`: prefix with the server id exactly when the
bare name is already taken by a different server. -/
def resolveToolName (toolSchemas : List (String × ToolSchema))
    (toolName serverId : String) : String :=
  match mapGet toolSchemas toolName with
  | some existingSchema =>
      if existingSchema.serverId ≠ serverId then serverId ++ "." ++ toolName
      else toolName
  | none => toolName

/-- `{ ...schema, name: key }` of the insertion loop in `loadToolSchemas`. -/
def setName (s : ToolSchema) (key : String) : ToolSchema :=
  { s with name := key }

/-- The insertion loop of `MCPRegistry.loadToolSchemas`: for each fetched
schema, resolve its key against the current map and store the schema with
its `name` field rewritten to that key. -/
def insertSchemas (toolSchemas : List (String × ToolSchema))
    (schemas : List ToolSchema) : List (String × ToolSchema) :=
  schemas.foldl
    (fun m s =>
      let key := resolveToolName m s.name s.serverId
      mapSet m key (setName s key))
    toolSchemas

/-- `MCPRegistry.loadToolSchemas` after the catalog has been fetched: bail
out unless the client exists and is connected, purge the server's old
entries, then run the insertion loop. -/
def loadToolSchemasPure (st : RegState) (serverId : String)
    (catalog : List ToolSchema) : RegState :=
  match mapGet st.clients serverId with
  | some true =>
      let purged := st.toolSchemas.filter (fun p => p.2.serverId ≠ serverId)
      { st with toolSchemas := insertSchemas purged catalog }
  | _ => st

/-- `MCPRegistry.connect(serverId)`: the transport outcome and the
catalog-fetch outcome (`MCPClient.connect` / `MCPClient.listTools`) are
oracle inputs.  Connection events are outside the modelled claims. -/
def connectServer (st : RegState) (serverId : String)
    (connectOutcome : Except Err Unit)
    (catalogOutcome : Except Err (List ToolSchema)) : Option Err × RegState :=
  match mapGet st.clients serverId with
  | none =>
      (some (.connectionError ("Server " ++ serverId ++ " not found in registry")
        (some serverId)), st)
  | some _ =>
      match connectOutcome with
      | .error e => (some e, st)
      | .ok _ =>
          let st1 := { st with clients := mapSet st.clients serverId true }
          match catalogOutcome with
          | .error _ =>
              (some (.schemaError
                ("Failed to load tool schemas from server " ++ serverId)), st1)
          | .ok catalog => (none, loadToolSchemasPure st1 serverId catalog)

/-- One backend's attempt inside `MCPRegistry.connectAll`: connect, then
load the catalog; returns the updated state and whether this backend
failed.  A connect failure leaves the client disconnected; a catalog
failure leaves it connected with no schemas loaded, as in the source. -/
def connectAllStep (connectOutcome : String → Except Err Unit)
    (catalogOutcome : String → Except Err (List ToolSchema))
    (st : RegState) (serverId : String) : RegState × Bool :=
  match connectOutcome serverId with
  | .error _ => (st, true)
  | .ok _ =>
      let st1 := { st with clients := mapSet st.clients serverId true }
      match catalogOutcome serverId with
      | .error _ => (st1, true)
      | .ok catalog => (loadToolSchemasPure st1 serverId catalog, false)

/-- The per-backend sweep of `connectAll` over the snapshot of client ids,
collecting failed ids in order. -/
def connectAllFold (connectOutcome : String → Except Err Unit)
    (catalogOutcome : String → Except Err (List ToolSchema))
    (ids : List String) (st : RegState) (failed : List String) :
    RegState × List String :=
  match ids with
  | [] => (st, failed)
  | serverId :: rest =>
      let r := connectAllStep connectOutcome catalogOutcome st serverId
      connectAllFold connectOutcome catalogOutcome rest r.1
        (failed ++ if r.2 then [serverId] else [])

/-- `MCPRegistry.connectAll`: every registered backend is attempted (the
source uses `Promise.allSettled`, so no failure stops the others); the
failed ids are collected in client-map order and, when non-empty, reported
as one aggregate `ConnectionError`. -/
def connectAll (st : RegState) (connectOutcome : String → Except Err Unit)
    (catalogOutcome : String → Except Err (List ToolSchema)) :
    Option Err × RegState :=
  let final := connectAllFold connectOutcome catalogOutcome
    (st.clients.map Prod.fst) st []
  if final.2.isEmpty then
    (none, final.1)
  else
    (some (.connectionError
      ("Failed to connect to servers: " ++ String.intercalate ", " final.2)
      none), final.1)

/-- `MCPRegistry.callTool`: resolve the name in the schema map, find the
owning client, require it connected, then forward to the client's own
`callTool` (abstracted as the `rpc` oracle: server id → tool name → args →
outcome). -/
def callTool (st : RegState) (rpc : String → String → Value → Except Err Value)
    (toolName : String) (args : Value) : Except Err Value :=
  match mapGet st.toolSchemas toolName with
  | none =>
      .error (.schemaError ("Tool " ++ toolName ++ " not found in any connected server"))
  | some schema =>
      match mapGet st.clients schema.serverId with
      | none =>
          .error (.connectionError
            ("Server " ++ schema.serverId ++ " not found in registry")
            (some schema.serverId))
      | some connected =>
          if connected then rpc schema.serverId toolName args
          else
            .error (.connectionError
              ("Server " ++ schema.serverId ++ " is not connected")
              (some schema.serverId))

/-- `MCPRegistry.getToolSchemasForServer`. -/
def getToolSchemasForServer (st : RegState) (serverId : String) : List ToolSchema :=
  (st.toolSchemas.map Prod.snd).filter (fun schema => schema.serverId = serverId)

/-- `MCPRegistry.isServerConnected`. -/
def isServerConnected (st : RegState) (serverId : String) : Bool :=
  match mapGet st.clients serverId with
  | some connected => connected
  | none => false

/-! ### Sandbox executor (`DenoExecutor`, `src/runtime/deno-executor.ts`) -/

/-- A per-capability permission value of `DenoPermissions`
(`src/types/index.ts`): JS `undefined`, a boolean, or a string allow-list. -/
inductive PermValue where
  | undef
  | bool (b : Bool)
  | list (xs : List String)
  deriving DecidableEq, Repr

/-- `DenoPermissions` (`allowHrtime` is `boolean | undefined` in the
source, with no allow-list form). -/
structure DenoPermissions where
  allowNet : PermValue
  allowRead : PermValue
  allowWrite : PermValue
  allowEnv : PermValue
  allowRun : PermValue
  allowHrtime : Option Bool
  deriving DecidableEq, Repr

/-- The default permission set: nothing explicitly granted. -/
def deniedAll : DenoPermissions :=
  { allowNet := .undef, allowRead := .undef, allowWrite := .undef
    allowEnv := .undef, allowRun := .undef, allowHrtime := none }

/-- `SandboxConfig` of `src/runtime/deno-executor.ts`. -/
structure SandboxConfig where
  timeout : Nat
  memoryLimit : Nat
  permissions : DenoPermissions
  allowedModules : List String
  workingDir : Option String
  enableDebugging : Option Bool
  deriving DecidableEq, Repr

/-- `ExecutionOptions` of `src/types/index.ts`. -/
structure ExecutionOptions where
  timeout : Option Nat
  memoryLimit : Option Nat
  permissions : Option DenoPermissions
  captureMetrics : Option Bool
  deriving DecidableEq, Repr

/-- The empty options object (`{}`), the default of `execute`/`executeFile`. -/
def noOptions : ExecutionOptions :=
  { timeout := none, memoryLimit := none, permissions := none, captureMetrics := none }

/-- `ExecutionMetrics` of `src/types/index.ts`. -/
structure ExecutionMetrics where
  duration : Nat
  memoryUsed : Nat
  apiCallCount : Nat
  deriving DecidableEq, Repr

/-- `ExecutionResult` of `src/types/index.ts`.  The subprocess output
(`JSON.parse` of trimmed stdout, falling back to the raw trimmed text) is
carried as the trimmed stdout text; the host JSON decoder is external to
the modelled code and no claim inspects the decoded structure. -/
structure ExecutionResult where
  success : Bool
  result : Option String
  error : Option Err
  metrics : ExecutionMetrics
  deriving DecidableEq, Repr

/-- `DenoExecutor.mergeOptions`: per-field override of the base config
(`??` keeps the base value when the option is absent). -/
def mergeOptions (config : SandboxConfig) (options : ExecutionOptions) : SandboxConfig :=
  { config with
    timeout := options.timeout.getD config.timeout
    memoryLimit := options.memoryLimit.getD config.memoryLimit
    permissions := options.permissions.getD config.permissions }

/-- `pat` occurs as a contiguous run inside `cs`. -/
def listContainsSub (cs pat : List Char) : Bool :=
  match cs with
  | [] => pat.isEmpty
  | _ :: rest => pat.isPrefixOf cs || listContainsSub rest pat

/-- JS `s.includes(pat)`. -/
def containsSubstr (s pat : String) : Bool :=
  listContainsSub s.data pat.data

/-- JS `s.endsWith(suffix)`. -/
def strEndsWith (s suffix : String) : Bool :=
  suffix.data.isSuffixOf s.data

/-- JS `s.trim()`. -/
def strTrim (s : String) : String :=
  ⟨((s.data.dropWhile Char.isWhitespace).reverse.dropWhile Char.isWhitespace).reverse⟩

/-- JS `s.toLowerCase()`. -/
def strToLower (s : String) : String :=
  ⟨s.data.map Char.toLower⟩

/-- `DenoExecutor.validateFilePath`: reject `..`/`~` paths as a
`SecurityError`, then non-`.ts`/`.tsx` extensions as a `ValidationError`. -/
def validateFilePath (filePath : String) : Except Err Unit :=
  if containsSubstr filePath ".." || containsSubstr filePath "~" then
    .error (.securityError "Invalid file path: path traversal not allowed"
      "path_traversal")
  else if !(strEndsWith filePath ".ts") && !(strEndsWith filePath ".tsx") then
    .error (.validationError "Invalid file type: only TypeScript files are allowed"
      "filePath")
  else
    .ok ()

/-- One capability block of `buildDenoArgs`: `if (p.x === true)
args.push(flag); else if (Array.isArray(p.x))
args.push(flag + "=" + p.x.join(","))` — nothing otherwise. -/
def permissionFlagArgs (flag : String) (v : PermValue) : List String :=
  if v = .bool true then [flag]
  else
    match v with
    | .list xs => [flag ++ "=" ++ String.intercalate "," xs]
    | _ => []

/-- `DenoExecutor.buildDenoArgs`: `run`, then one block per capability in
source order (net, read, write, env, run, hrtime), then the file path. -/
def buildDenoArgs (filePath : String) (config : SandboxConfig) : List String :=
  let permissions := config.permissions
  let args := ["run"]
  let args := args ++ permissionFlagArgs "--allow-net" permissions.allowNet
  let args := args ++ permissionFlagArgs "--allow-read" permissions.allowRead
  let args := args ++ permissionFlagArgs "--allow-write" permissions.allowWrite
  let args := args ++ permissionFlagArgs "--allow-env" permissions.allowEnv
  let args := args ++ permissionFlagArgs "--allow-run" permissions.allowRun
  let args := args ++
    (if permissions.allowHrtime = some true then ["--allow-hrtime"] else [])
  args ++ [filePath]

/-- How one sandbox subprocess run resolves: the first of spawn failure,
timeout timer, memory-sampler kill, or process exit wins the race in
`executeSubprocess`. -/
inductive SubprocessOutcome where
  | spawnFailed (message : String)
  | timedOut
  | memoryExceeded (memoryUsed : Nat)
  | exited (code : Int) (sigkill : Bool) (stdout stderr : String) (memoryUsed : Nat)
  deriving DecidableEq, Repr

/-- `(stdout.match(/api\s*call/gi) || []).length`: skip blanks after a
case-insensitive `api`, then require `call`. -/
def apiCallTail (cs : List Char) : Option (List Char) :=
  match cs with
  | 'a' :: 'p' :: 'i' :: rest =>
      match rest.dropWhile (fun c => c.isWhitespace) with
      | 'c' :: 'a' :: 'l' :: 'l' :: r => some r
      | _ => none
  | _ => none

/-- Count the non-overlapping matches left to right (fuel-driven; the fuel
is the remaining length, and every step consumes at least one char). -/
def countApiGo : Nat → List Char → Nat
  | 0, _ => 0
  | _ + 1, [] => 0
  | fuel + 1, c :: rest =>
      match apiCallTail (c :: rest) with
      | some r => 1 + countApiGo fuel r
      | none => countApiGo fuel rest

/-- The `apiCallCount` heuristic of the exit handler. -/
def countApiCalls (stdout : String) : Nat :=
  countApiGo (strToLower stdout).data.length (strToLower stdout).data

/-- Output surfaced on a zero-exit run: the trimmed stdout (see
`ExecutionResult`). -/
def parseStdout (stdout : String) : String :=
  strTrim stdout

/-- What `executeSubprocess` resolves with on success. -/
structure SubprocessResult where
  output : String
  memoryUsed : Nat
  apiCallCount : Nat
  deriving DecidableEq, Repr

/-- `DenoExecutor.executeSubprocess`: maps the race outcome to the
resolved value or the rejection, mirroring the timeout handler, the
memory-sampler kill, and the `exit`/`error` handlers. -/
def executeSubprocess (config : SandboxConfig) (outcome : SubprocessOutcome) :
    Except Err SubprocessResult :=
  match outcome with
  | .spawnFailed message =>
      .error (.runtimeError ("Failed to start Deno process: " ++ message))
  | .timedOut =>
      .error (.runtimeError
        ("Execution timed out after " ++ toString config.timeout ++ "ms"))
  | .memoryExceeded memoryUsed =>
      .error (.runtimeError
        ("Memory limit exceeded: " ++ toString memoryUsed ++ " > " ++
          toString config.memoryLimit))
  | .exited code sigkill stdout stderr memoryUsed =>
      if sigkill then
        .error (.runtimeError "Process was killed (timeout or resource limit)")
      else if code ≠ 0 then
        .error (.runtimeError
          ("Process exited with code " ++ toString code ++ ": " ++ stderr))
      else
        .ok { output := parseStdout stdout, memoryUsed := memoryUsed
              apiCallCount := countApiCalls stdout }

/-- The failure `ExecutionResult` built by the `catch` branches of
`execute`/`executeFile`. -/
def failureResult (e : Err) (duration : Nat) : ExecutionResult :=
  { success := false, result := none, error := some e
    metrics := { duration := duration, memoryUsed := 0, apiCallCount := 0 } }

/-- `DenoExecutor.executeFile`.  The returned `Except` is the promise
observation: `.ok` a resolved `ExecutionResult`, `.error` a rejection.
The `catch` covers the whole body, so every branch resolves.  `startTime`
and `now` stand for the two `Date.now()` readings. -/
def executeFile (config : SandboxConfig) (filePath : String)
    (options : ExecutionOptions) (outcome : SubprocessOutcome)
    (startTime now : Nat) : Except Err ExecutionResult :=
  let effectiveConfig := mergeOptions config options
  match validateFilePath filePath with
  | .error e => .ok (failureResult e (now - startTime))
  | .ok _ =>
      let _args := buildDenoArgs filePath effectiveConfig
      match executeSubprocess effectiveConfig outcome with
      | .error e => .ok (failureResult e (now - startTime))
      | .ok r =>
          .ok { success := true, result := some r.output, error := none
                metrics := { duration := now - startTime
                             memoryUsed := r.memoryUsed
                             apiCallCount := r.apiCallCount } }

/-- `DenoExecutor.execute`: materialize the code into a temp file
(`tempFileOutcome`; a raw fs failure message on error, the path on
success), delegate to `executeFile`, and catch everything. -/
def execute (config : SandboxConfig) (options : ExecutionOptions)
    (tempFileOutcome : Except String String) (outcome : SubprocessOutcome)
    (startTime now : Nat) : Except Err ExecutionResult :=
  match tempFileOutcome with
  | .error message =>
      .ok (failureResult (.runtimeError ("Execution failed: " ++ message))
        (now - startTime))
  | .ok tempFile =>
      match executeFile config tempFile options outcome startTime now with
      | .ok r => .ok r
      | .error e => .ok (failureResult e (now - startTime))

/-! ### Call interceptor (`CallInterceptor`, `src/bridge/call-interceptor.ts`) -/

/-- `CallContext`. -/
structure CallContext where
  target : String
  method : String
  args : List Value
  timestamp : Nat
  callId : String
  deriving DecidableEq, Repr

/-- The outcome of one intercepted call: a resolved value or a rejection. -/
def CallRes := Except Err Value

/-- A middleware stage: `(context, next) => Promise<unknown>`. -/
def Middleware := CallContext → (Unit → CallRes) → CallRes

/-- `CallInterceptor.executeCall`, the terminal stage: if the target is a
connected server id, dispatch `method`; otherwise dispatch the target when
it is dotted, the method when not; wrap any failure in a routing
`ConnectionError`. -/
def executeCall (st : RegState) (rpc : String → String → Value → Except Err Value)
    (context : CallContext) : CallRes :=
  let dispatched :=
    if isServerConnected st context.target then
      callTool st rpc context.method (context.args.headD .undef)
    else
      let toolName := if containsSubstr context.target "." then context.target
                      else context.method
      callTool st rpc toolName (context.args.headD .undef)
  match dispatched with
  | .ok v => .ok v
  | .error _ =>
      .error (.connectionError
        ("Failed to execute call " ++ context.callId ++ ": " ++
          context.target ++ "." ++ context.method)
        (some context.target))

/-- `CallInterceptor.executeMiddlewarePipeline`: past the end of the list,
run the terminal dispatch; otherwise hand the stage the context and a
`next` continuation for index `i + 1`. -/
def executeMiddlewarePipeline (dispatch : CallContext → CallRes)
    (middlewares : List Middleware) (context : CallContext) (i : Nat) : CallRes :=
  if h : i < middlewares.length then
    (middlewares.get ⟨i, h⟩) context
      (fun _ => executeMiddlewarePipeline dispatch middlewares context (i + 1))
  else
    dispatch context
termination_by middlewares.length - i

/-- `CallInterceptor.intercept`: build a fresh context and start the
pipeline at stage 0 (the `callId` counter is abstracted as an input). -/
def intercept (st : RegState) (rpc : String → String → Value → Except Err Value)
    (middlewares : List Middleware) (target method : String) (args : List Value)
    (timestamp : Nat) (callId : String) : CallRes :=
  executeMiddlewarePipeline (executeCall st rpc) middlewares
    { target := target, method := method, args := args
      timestamp := timestamp, callId := callId } 0

/-! ### Bridge proxy (`MCPBridge.createProxy`, `src/bridge/mcp-bridge.ts`) -/

/-- `ProxyConfig` (the `propertyHandlers` values are opaque; only which
names are registered matters to the modelled trap). -/
structure ProxyConfig where
  includeMetadata : Bool
  propertyHandlerNames : List String
  deriving DecidableEq, Repr

/-- What reading one member of a bridge proxy yields, per the `get` trap:
bridge metadata, a registered custom handler, or a callable that forwards
`interceptCall namespace toolName` on invocation. -/
inductive ProxyMember where
  | namespaceStr (namespaceName : String)
  | toolsMeta (tools : Option (List ToolSchema))
  | stringConversion (text : String)
  | primitiveValue (namespaceName : String)
  | customHandler (name : String)
  | toolCall (target toolName : String)
  deriving DecidableEq, Repr

/-- The tool-name set the proxy is built over:
`registry.getToolSchemasForServer(namespace)` mapped to names. -/
def proxyToolNames (st : RegState) (namespaceName : String) : List String :=
  (getToolSchemasForServer st namespaceName).map ToolSchema.name

/-- The `get` trap of `createProxy`. -/
def proxyGet (st : RegState) (namespaceName : String) (config : ProxyConfig)
    (property : String) : ProxyMember :=
  if property = "__namespace" then .namespaceStr namespaceName
  else if property = "__tools" then
    .toolsMeta (if config.includeMetadata
      then some (getToolSchemasForServer st namespaceName) else none)
  else if property = "toString" then
    .stringConversion ("[MCPProxy:" ++ namespaceName ++ "]")
  else if property = "valueOf" then .primitiveValue namespaceName
  else if property ∈ config.propertyHandlerNames then .customHandler property
  else
    let toolName := if property ∈ proxyToolNames st namespaceName then property
                    else namespaceName ++ "." ++ property
    .toolCall namespaceName toolName

/-! ### Specification-side definitions used by the claim statements -/

/-- The argument segment one capability contributes to the Deno command
line, as the specification describes it: bare flag when fully allowed,
`=`-joined allow-list when granted a list, nothing otherwise. -/
def capArgs (flag : String) (v : PermValue) : List String :=
  match v with
  | .bool true => [flag]
  | .list xs => [flag ++ "=" ++ String.intercalate "," xs]
  | _ => []

/-- The segment the `hrtime` capability contributes. -/
def hrtimeArgs (h : Option Bool) : List String :=
  if h = some true then ["--allow-hrtime"] else []

/-- The key under which a tool of a second server lands when inserted over
the map `m`: namespaced exactly when the bare name is already taken. -/
def keyFor (m : List (String × ToolSchema)) (serverB : String)
    (s : ToolSchema) : String :=
  match mapGet m s.name with
  | some _ => serverB ++ "." ++ s.name
  | none => s.name

/-- The schema-map invariant of claim C10: every stored schema's `name`
field equals its map key. -/
def schemaMapInv (m : List (String × ToolSchema)) : Prop :=
  ∀ p ∈ m, p.2.name = p.1

/-- Whether one backend's `connectAll` attempt (connect, then catalog
fetch) succeeds. -/
def serverAttemptOk (connectOutcome : String → Except Err Unit)
    (catalogOutcome : String → Except Err (List ToolSchema))
    (serverId : String) : Bool :=
  (match connectOutcome serverId with | .ok _ => true | .error _ => false) &&
  (match catalogOutcome serverId with | .ok _ => true | .error _ => false)

/-- The C1 scenario: a fresh registry holding exactly the two backends `A`
and `B`, after `connect(A)` with catalog `catA` and then `connect(B)` with
catalog `catB`, both transports succeeding. -/
def twoServerLoad (A B : String) (catA catB : List ToolSchema) : RegState :=
  let st0 : RegState :=
    { clients := [(A, false), (B, false)], serverConfigs := [], toolSchemas := [] }
  let st1 := (connectServer st0 A (.ok ()) (.ok catA)).2
  (connectServer st1 B (.ok ()) (.ok catB)).2

/-! #### Concrete fixtures for witnesses and counterexamples -/

/-- A base sandbox config used by the executor witnesses. -/
def cfg0 : SandboxConfig :=
  { timeout := 1000, memoryLimit := 1000000, permissions := deniedAll
    allowedModules := [], workingDir := none, enableDebugging := none }

/-- First backend's catalog for the C1 counterexample: a tool `getData`
plus a tool literally named `beta.getData`. -/
def catACE : List ToolSchema :=
  [{ name := "getData", description := "", inputSchema := "", serverId := "alpha" },
   { name := "beta.getData", description := "", inputSchema := "", serverId := "alpha" }]

/-- Second backend's catalog for the C1 counterexample. -/
def catBCE : List ToolSchema :=
  [{ name := "getData", description := "", inputSchema := "", serverId := "beta" }]

/-- A registered server config used by the C6 witness. -/
def cfgSrvA : MCPServerConfig :=
  { id := "a", url := "cmd-a", timeout := none, retries := none, displayName := none }

/-- A registry that already holds server `a`, for the C6 witness. -/
def stWithA : RegState :=
  { clients := [("a", false)], serverConfigs := [("a", cfgSrvA)], toolSchemas := [] }

/-- Schema owned by the connected server `a` (C5 witness). -/
def schemaT1 : ToolSchema :=
  { name := "t1", description := "", inputSchema := "", serverId := "a" }

/-- Schema owned by the registered but disconnected server `b` (C5 witness). -/
def schemaT2 : ToolSchema :=
  { name := "t2", description := "", inputSchema := "", serverId := "b" }

/-- Schema whose owner is absent from the client map (C5 witness). -/
def schemaT3 : ToolSchema :=
  { name := "t3", description := "", inputSchema := "", serverId := "ghost" }

/-- Registry state exercising all `callTool` branches (C5 witness). -/
def stCall : RegState :=
  { clients := [("a", true), ("b", false)], serverConfigs := []
    toolSchemas := [("t1", schemaT1), ("t2", schemaT2), ("t3", schemaT3)] }

/-- A concrete backend RPC oracle for witnesses. -/
def rpcW : String → String → Value → Except Err Value :=
  fun serverId toolName _args => .ok (.str (serverId ++ "/" ++ toolName))

/-- A middleware that short-circuits: returns without invoking `next`. -/
def mwShort : Middleware := fun _context _next => .ok (.str "short-circuited")

/-- A middleware that forwards to `next` unchanged. -/
def mwForward : Middleware := fun _context next => next ()

/-- A terminal dispatch for the C7 witness. -/
def dispatchW : CallContext → CallRes := fun _context => .ok (.str "dispatched")

/-- A concrete call context for the C7 witness. -/
def ctxW : CallContext :=
  { target := "a", method := "t1", args := [], timestamp := 0, callId := "call_1" }

/-- Connect oracle for the C8 witness: backend `b` fails to connect. -/
def coW : String → Except Err Unit :=
  fun serverId =>
    if serverId = "b" then
      .error (.connectionError "Failed to connect to MCP server b" (some "b"))
    else .ok ()

/-- Catalog oracle for the C8 witness: empty catalogs. -/
def catW : String → Except Err (List ToolSchema) := fun _serverId => .ok []

/-- A two-backend registry, both disconnected (C8 witness). -/
def stTwo : RegState :=
  { clients := [("a", false), ("b", false)], serverConfigs := [], toolSchemas := [] }

/-- First backend's catalog for the C1 witness. -/
def catAW : List ToolSchema :=
  [{ name := "getData", description := "", inputSchema := "", serverId := "alpha" },
   { name := "listFiles", description := "", inputSchema := "", serverId := "alpha" }]

/-- Second backend's catalog for the C1 witness: `getData` collides. -/
def catBW : List ToolSchema :=
  [{ name := "getData", description := "", inputSchema := "", serverId := "beta" },
   { name := "sendMail", description := "", inputSchema := "", serverId := "beta" }]

/-! ## Lemmas about the `Map` model -/

theorem mapGet_append (m₁ m₂ : List (String × α)) (k : String) :
    mapGet (m₁ ++ m₂) k =
      match mapGet m₁ k with
      | some v => some v
      | none => mapGet m₂ k := by
  induction m₁ with
  | nil => simp [mapGet]
  | cons p rest ih =>
      obtain ⟨k', v⟩ := p
      by_cases h : k' = k <;> simp [mapGet, h, ih]

theorem mapGet_eq_none_iff (m : List (String × α)) (k : String) :
    mapGet m k = none ↔ k ∉ m.map Prod.fst := by
  induction m with
  | nil => simp [mapGet]
  | cons p rest ih =>
      obtain ⟨k', v⟩ := p
      by_cases h : k' = k
      · subst h
        simp [mapGet]
      · simp only [mapGet, if_neg h, ih, List.map_cons, List.mem_cons]
        constructor
        · intro hn hk
          rcases hk with hk | hk
          · exact h hk.symm
          · exact hn hk
        · intro hn hk
          exact hn (Or.inr hk)

theorem mapGet_mem (m : List (String × α)) (k : String) (v : α)
    (h : mapGet m k = some v) : (k, v) ∈ m := by
  induction m with
  | nil => simp [mapGet] at h
  | cons p rest ih =>
      obtain ⟨k', v'⟩ := p
      by_cases hk : k' = k
      · subst hk
        simp [mapGet] at h
        subst h
        exact List.mem_cons_self _ _
      · simp [mapGet, hk] at h
        exact List.mem_cons_of_mem _ (ih h)

theorem mapSet_fresh (m : List (String × α)) (k : String) (v : α)
    (h : mapGet m k = none) : mapSet m k v = m ++ [(k, v)] := by
  induction m with
  | nil => simp [mapSet]
  | cons p rest ih =>
      obtain ⟨k', v'⟩ := p
      by_cases h0 : k' = k
      · simp [mapGet, h0] at h
      · simp only [mapGet, if_neg h0] at h
        simp [mapSet, h0, ih h]

theorem mapGet_mapSet_ne (m : List (String × α)) (k k' : String) (v : α)
    (h : k' ≠ k) : mapGet (mapSet m k v) k' = mapGet m k' := by
  induction m with
  | nil => simp [mapSet, mapGet, Ne.symm h]
  | cons p rest ih =>
      obtain ⟨k₀, v₀⟩ := p
      by_cases h0 : k₀ = k
      · subst h0
        simp [mapSet, mapGet, Ne.symm h, h]
      · simp [mapSet, h0, mapGet, ih]

theorem mapGet_mapSet_self (m : List (String × α)) (k : String) (v : α) :
    mapGet (mapSet m k v) k = some v := by
  induction m with
  | nil => simp [mapSet, mapGet]
  | cons p rest ih =>
      obtain ⟨k₀, v₀⟩ := p
      by_cases h0 : k₀ = k
      · subst h0
        simp [mapSet, mapGet]
      · simp [mapSet, h0, mapGet, ih]

theorem mapSet_mem_cases (m : List (String × α)) (k : String) (v : α)
    (p : String × α) (h : p ∈ mapSet m k v) : p = (k, v) ∨ p ∈ m := by
  induction m with
  | nil => simpa [mapSet] using h
  | cons q rest ih =>
      obtain ⟨k₀, v₀⟩ := q
      by_cases h0 : k₀ = k
      · subst h0
        simp [mapSet] at h
        rcases h with h | h
        · exact Or.inl (by simp [h])
        · exact Or.inr (List.mem_cons_of_mem _ h)
      · simp [mapSet, h0] at h
        rcases h with h | h
        · exact Or.inr (by simp [h])
        · rcases ih h with h' | h'
          · exact Or.inl h'
          · exact Or.inr (List.mem_cons_of_mem _ h')

/-! ## String lemmas -/

theorem string_append_cancel_left (a x y : String) (h : a ++ x = a ++ y) : x = y := by
  have hd : a.data ++ x.data = a.data ++ y.data := by
    have hc := congrArg String.data h
    simpa [String.data_append] using hc
  have hxy : x.data = y.data := List.append_cancel_left hd
  cases x
  cases y
  exact congrArg String.mk hxy

theorem string_dot_prefix_ne (serverId n : String) : serverId ++ "." ++ n ≠ n := by
  intro h
  have hl := congrArg String.length h
  rw [String.length_append, String.length_append] at hl
  have hdot : ".".length = 1 := rfl
  omega

theorem string_eq_suffix_ne (flag rest : String) (h : 0 < rest.length) :
    flag ++ "=" ++ rest ≠ flag := by
  intro heq
  have hl := congrArg String.length heq
  rw [String.length_append, String.length_append] at hl
  have heqlen : "=".length = 1 := rfl
  omega

/-! ## C2 — capability argument list -/

theorem permissionFlagArgs_eq_capArgs (flag : String) (v : PermValue) :
    permissionFlagArgs flag v = capArgs flag v := by
  cases v with
  | undef => rfl
  | bool b => cases b <;> rfl
  | list xs => rfl

/-- C2: for every sandbox execution, the subprocess argument list contains
an unrestricted allow flag exactly for the capabilities set to `true`, an
allow-list flag listing exactly the granted resources for the capabilities
set to an array, and no flag at all for every capability not explicitly
granted (omission — denial — is the default for net, read, write, env,
run and hrtime). -/
theorem c2_buildDenoArgs_capability_flags (filePath : String) (config : SandboxConfig) :
    buildDenoArgs filePath config =
      ["run"] ++ capArgs "--allow-net" config.permissions.allowNet
        ++ capArgs "--allow-read" config.permissions.allowRead
        ++ capArgs "--allow-write" config.permissions.allowWrite
        ++ capArgs "--allow-env" config.permissions.allowEnv
        ++ capArgs "--allow-run" config.permissions.allowRun
        ++ hrtimeArgs config.permissions.allowHrtime
        ++ [filePath] ∧
    (∀ flag v, (capArgs flag v = [flag] ↔ v = .bool true) ∧
      (∀ xs, v = .list xs →
        capArgs flag v = [flag ++ "=" ++ String.intercalate "," xs]) ∧
      (capArgs flag v = [] ↔ (v = .undef ∨ v = .bool false))) ∧
    (∀ h, (hrtimeArgs h = ["--allow-hrtime"] ↔ h = some true) ∧
      (hrtimeArgs h = [] ↔ h ≠ some true)) := by
  refine ⟨?_, ?_, ?_⟩
  · simp [buildDenoArgs, permissionFlagArgs_eq_capArgs, hrtimeArgs, List.append_assoc]
  · intro flag v
    refine ⟨?_, ?_, ?_⟩
    · constructor
      · intro h
        cases v with
        | undef => simp [capArgs] at h
        | bool b =>
            cases b
            · simp [capArgs] at h
            · rfl
        | list xs =>
            simp only [capArgs, List.cons.injEq, and_true] at h
            exact absurd h (by
              have : (0 : Nat) < (String.intercalate "," xs).length ∨
                  (String.intercalate "," xs).length = 0 := by omega
              intro heq
              have hl := congrArg String.length heq
              rw [String.length_append, String.length_append] at hl
              have : "=".length = 1 := rfl
              omega)
      · intro h
        subst h
        rfl
    · intro xs h
      subst h
      rfl
    · constructor
      · intro h
        cases v with
        | undef => exact Or.inl rfl
        | bool b =>
            cases b
            · exact Or.inr rfl
            · simp [capArgs] at h
        | list xs => simp [capArgs] at h
      · intro h
        rcases h with h | h <;> subst h <;> rfl
  · intro h
    constructor
    · constructor
      · intro hh
        by_cases hq : h = some true
        · exact hq
        · simp [hrtimeArgs, hq] at hh
      · intro hh
        subst hh
        rfl
    · constructor
      · intro hh
        by_cases hq : h = some true
        · subst hq
          simp [hrtimeArgs] at hh
        · exact hq
      · intro hh
        simp [hrtimeArgs, hh]

/-- Witness for C2 at a concrete permission set: net fully allowed, read
allow-listed, everything else denied by omission. -/
theorem c2_buildDenoArgs_capability_flags_witness :
    buildDenoArgs "main.ts"
      { cfg0 with permissions :=
        { deniedAll with allowNet := .bool true, allowRead := .list ["/tmp", "/data"] } } =
      ["run"] ++ capArgs "--allow-net" (.bool true)
        ++ capArgs "--allow-read" (.list ["/tmp", "/data"])
        ++ capArgs "--allow-write" .undef
        ++ capArgs "--allow-env" .undef
        ++ capArgs "--allow-run" .undef
        ++ hrtimeArgs none
        ++ ["main.ts"] :=
  (c2_buildDenoArgs_capability_flags "main.ts"
    { cfg0 with permissions :=
      { deniedAll with allowNet := .bool true, allowRead := .list ["/tmp", "/data"] } }).1

/-! ## C5 — `callTool` routing -/

/-- C5: `Registry.callTool` fails with a `SchemaError` when the name is in
no schema map entry, with a `ConnectionError` when the owning backend is
missing or disconnected, and otherwise forwards name and arguments
unchanged to the owning backend's RPC and returns its outcome unchanged. -/
theorem c5_callTool_routing (st : RegState)
    (rpc : String → String → Value → Except Err Value)
    (toolName : String) (args : Value) :
    (mapGet st.toolSchemas toolName = none →
      callTool st rpc toolName args =
        .error (.schemaError
          ("Tool " ++ toolName ++ " not found in any connected server"))) ∧
    (∀ schema, mapGet st.toolSchemas toolName = some schema →
      mapGet st.clients schema.serverId = none →
      callTool st rpc toolName args =
        .error (.connectionError
          ("Server " ++ schema.serverId ++ " not found in registry")
          (some schema.serverId))) ∧
    (∀ schema, mapGet st.toolSchemas toolName = some schema →
      mapGet st.clients schema.serverId = some false →
      callTool st rpc toolName args =
        .error (.connectionError
          ("Server " ++ schema.serverId ++ " is not connected")
          (some schema.serverId))) ∧
    (∀ schema, mapGet st.toolSchemas toolName = some schema →
      mapGet st.clients schema.serverId = some true →
      callTool st rpc toolName args = rpc schema.serverId toolName args) := by
  refine ⟨?_, ?_, ?_, ?_⟩
  · intro h
    simp [callTool, h]
  · intro schema h hc
    simp [callTool, h, hc]
  · intro schema h hc
    simp [callTool, h, hc]
  · intro schema h hc
    simp [callTool, h, hc]

/-- Witness for C5, exercising all four branches on one registry. -/
theorem c5_callTool_routing_witness :
    callTool stCall rpcW "missing" (.num 1) =
      .error (.schemaError "Tool missing not found in any connected server") ∧
    callTool stCall rpcW "t3" (.num 1) =
      .error (.connectionError "Server ghost not found in registry" (some "ghost")) ∧
    callTool stCall rpcW "t2" (.num 1) =
      .error (.connectionError "Server b is not connected" (some "b")) ∧
    callTool stCall rpcW "t1" (.num 2) = rpcW "a" "t1" (.num 2) :=
  ⟨(c5_callTool_routing stCall rpcW "missing" (.num 1)).1 (by decide),
   (c5_callTool_routing stCall rpcW "t3" (.num 1)).2.1 schemaT3 (by decide) (by decide),
   (c5_callTool_routing stCall rpcW "t2" (.num 1)).2.2.1 schemaT2 (by decide) (by decide),
   (c5_callTool_routing stCall rpcW "t1" (.num 2)).2.2.2 schemaT1 (by decide) (by decide)⟩

/-! ## C6 — duplicate `addServer` -/

/-- C6: adding a config whose id is already registered throws a
`ConnectionError` and leaves the registry state — all three maps —
unchanged. -/
theorem c6_addServer_duplicate (st : RegState) (config : MCPServerConfig)
    (h : mapHas st.serverConfigs config.id = true) :
    addServer st config =
      (some (.connectionError
        ("Server with ID " ++ config.id ++ " already exists in registry")
        (some config.id)), st) ∧
    (addServer st config).2.clients = st.clients ∧
    (addServer st config).2.serverConfigs = st.serverConfigs ∧
    (addServer st config).2.toolSchemas = st.toolSchemas := by
  refine ⟨by simp [addServer, h], ?_, ?_, ?_⟩ <;> simp [addServer, h]

/-- Witness for C6 on a registry that already holds server `a`. -/
theorem c6_addServer_duplicate_witness :
    addServer stWithA cfgSrvA =
      (some (.connectionError "Server with ID a already exists in registry"
        (some "a")), stWithA) :=
  (c6_addServer_duplicate stWithA cfgSrvA (by decide)).1

/-! ## C3 — execution results are total and well-formed -/

theorem executeFile_shape (config : SandboxConfig) (filePath : String)
    (options : ExecutionOptions) (outcome : SubprocessOutcome) (startTime now : Nat) :
    (∃ e, executeFile config filePath options outcome startTime now =
      .ok (failureResult e (now - startTime))) ∨
    (∃ r : SubprocessResult,
      executeFile config filePath options outcome startTime now =
        .ok { success := true, result := some r.output, error := none
              metrics := { duration := now - startTime, memoryUsed := r.memoryUsed
                           apiCallCount := r.apiCallCount } }) := by
  cases hv : validateFilePath filePath with
  | error e =>
      exact Or.inl ⟨e, by simp [executeFile, hv]⟩
  | ok _ =>
      cases hs : executeSubprocess (mergeOptions config options) outcome with
      | error e => exact Or.inl ⟨e, by simp [executeFile, hv, hs]⟩
      | ok r => exact Or.inr ⟨r, by simp [executeFile, hv, hs]⟩

/-- C3: `execute` and `executeFile` always resolve with exactly one
`ExecutionResult` (ordinary script failures never reject the promise); a
failed result carries no `result` and does carry an `error`; a successful
one carries a `result` and no `error`; and the metrics are populated —
`duration` is the elapsed wall time — even on failure. -/
theorem c3_execution_result_invariants :
    (∀ config filePath options outcome startTime now res,
      executeFile config filePath options outcome startTime now = .ok res →
        (res.success = false → res.result = none ∧ res.error ≠ none) ∧
        (res.success = true → res.result ≠ none ∧ res.error = none) ∧
        res.metrics.duration = now - startTime) ∧
    (∀ config filePath options outcome startTime now e,
      executeFile config filePath options outcome startTime now ≠ .error e) ∧
    (∀ config options tempFileOutcome outcome startTime now res,
      execute config options tempFileOutcome outcome startTime now = .ok res →
        (res.success = false → res.result = none ∧ res.error ≠ none) ∧
        (res.success = true → res.result ≠ none ∧ res.error = none) ∧
        res.metrics.duration = now - startTime) ∧
    (∀ config options tempFileOutcome outcome startTime now e,
      execute config options tempFileOutcome outcome startTime now ≠ .error e) := by
  have hfile : ∀ (config : SandboxConfig) (filePath : String)
      (options : ExecutionOptions) (outcome : SubprocessOutcome)
      (startTime now : Nat) (res : ExecutionResult),
      executeFile config filePath options outcome startTime now = .ok res →
        (res.success = false → res.result = none ∧ res.error ≠ none) ∧
        (res.success = true → res.result ≠ none ∧ res.error = none) ∧
        res.metrics.duration = now - startTime := by
    intro config filePath options outcome startTime now res h
    rcases executeFile_shape config filePath options outcome startTime now with
      ⟨e, he⟩ | ⟨r, hr⟩
    · rw [he] at h
      have hres := Except.ok.inj h
      subst hres
      simp [failureResult]
    · rw [hr] at h
      have hres := Except.ok.inj h
      subst hres
      simp
  have hfileNoErr : ∀ (config : SandboxConfig) (filePath : String)
      (options : ExecutionOptions) (outcome : SubprocessOutcome)
      (startTime now : Nat) (e : Err),
      executeFile config filePath options outcome startTime now ≠ .error e := by
    intro config filePath options outcome startTime now e h
    rcases executeFile_shape config filePath options outcome startTime now with
      ⟨e', he⟩ | ⟨r, hr⟩
    · rw [he] at h
      exact Except.noConfusion h
    · rw [hr] at h
      exact Except.noConfusion h
  refine ⟨hfile, hfileNoErr, ?_, ?_⟩
  · intro config options tempFileOutcome outcome startTime now res h
    cases tempFileOutcome with
    | error message =>
        simp only [execute] at h
        have hres := Except.ok.inj h
        subst hres
        simp [failureResult]
    | ok tempFile =>
        simp only [execute] at h
        cases hx : executeFile config tempFile options outcome startTime now with
        | error e => exact absurd hx (hfileNoErr config tempFile options outcome startTime now e)
        | ok r =>
            rw [hx] at h
            have hres := Except.ok.inj h
            subst hres
            exact hfile config tempFile options outcome startTime now r hx
  · intro config options tempFileOutcome outcome startTime now e h
    cases tempFileOutcome with
    | error message => simp [execute] at h
    | ok tempFile =>
        simp only [execute] at h
        cases hx : executeFile config tempFile options outcome startTime now with
        | error e' => exact hfileNoErr config tempFile options outcome startTime now e' hx
        | ok r =>
            rw [hx] at h
            exact Except.noConfusion h

/-- Witness for C3 at a failing subprocess (nonzero exit) and at a temp
file creation failure. -/
theorem c3_execution_result_invariants_witness :
    (executeFile cfg0 "boom.ts" noOptions (.exited 1 false "" "boom" 0) 0 9 =
        .ok (failureResult (.runtimeError "Process exited with code 1: boom") 9) →
      (failureResult (.runtimeError "Process exited with code 1: boom") 9).result = none ∧
      (failureResult (.runtimeError "Process exited with code 1: boom") 9).error ≠ none) ∧
    execute cfg0 noOptions (.error "disk full") (.exited 0 false "" "" 0) 0 9 ≠
      .error (.runtimeError "Execution failed: disk full") :=
  ⟨fun h => ((c3_execution_result_invariants.1 cfg0 "boom.ts" noOptions
      (.exited 1 false "" "boom" 0) 0 9 _ h).1 rfl),
   c3_execution_result_invariants.2.2.2 cfg0 noOptions (.error "disk full")
     (.exited 0 false "" "" 0) 0 9 _⟩

/-! ## C4 — calling-contract violations at the `executeFile` boundary

The source wraps the whole body of `executeFile` — including
`validateFilePath` — in its `try`/`catch`, so a path-traversal or
wrong-extension violation does *not* reject the promise: it resolves with
an ordinary `success = false` result whose `error` field carries the
`SecurityError` / `ValidationError`.  The repository's own tests assert
exactly this resolved shape.  The claim's assertion that these are errors
at the call boundary rather than `success = false` results is therefore
false on the code. -/

/-- C4 counterexample: at the traversal path of the repository's test
suite the promise resolves (`.ok`) with an ordinary `success = false`
result — it is not an error at the `executeFile` boundary. -/
theorem c4_boundary_error_counterexample :
    executeFile cfg0 "../../../etc/passwd" noOptions (.exited 0 false "" "" 0) 0 3 =
      .ok { success := false, result := none
            error := some (.securityError
              "Invalid file path: path traversal not allowed" "path_traversal")
            metrics := { duration := 3, memoryUsed := 0, apiCallCount := 0 } } := by
  rfl

/-- C4 (amended): a traversal path yields — before the subprocess oracle
is ever consulted, hence before any subprocess is spawned — a resolved
`success = false` result carrying the `SecurityViolation`; a wrong
extension likewise yields a resolved failure carrying the `InvalidInput`
error.  (The right-hand sides are independent of `outcome`.) -/
theorem c4_contract_violations_resolved (config : SandboxConfig) (filePath : String)
    (options : ExecutionOptions) (outcome : SubprocessOutcome) (startTime now : Nat) :
    ((containsSubstr filePath ".." || containsSubstr filePath "~") = true →
      executeFile config filePath options outcome startTime now =
        .ok (failureResult
          (.securityError "Invalid file path: path traversal not allowed"
            "path_traversal")
          (now - startTime))) ∧
    ((containsSubstr filePath ".." || containsSubstr filePath "~") = false →
      (!(strEndsWith filePath ".ts") && !(strEndsWith filePath ".tsx")) = true →
      executeFile config filePath options outcome startTime now =
        .ok (failureResult
          (.validationError "Invalid file type: only TypeScript files are allowed"
            "filePath")
          (now - startTime))) := by
  constructor
  · intro h
    simp [executeFile, validateFilePath, h]
  · intro h hext
    simp [executeFile, validateFilePath, h, hext]

/-- Witness for the amended C4 at the test suite's two malformed paths. -/
theorem c4_contract_violations_resolved_witness :
    executeFile cfg0 "../../../etc/passwd" noOptions (.timedOut) 0 5 =
      .ok (failureResult
        (.securityError "Invalid file path: path traversal not allowed"
          "path_traversal") 5) ∧
    executeFile cfg0 "malicious.js" noOptions (.timedOut) 0 5 =
      .ok (failureResult
        (.validationError "Invalid file type: only TypeScript files are allowed"
          "filePath") 5) :=
  ⟨(c4_contract_violations_resolved cfg0 "../../../etc/passwd" noOptions
      .timedOut 0 5).1 (by decide),
   (c4_contract_violations_resolved cfg0 "malicious.js" noOptions
      .timedOut 0 5).2 (by decide) (by decide)⟩

/-! ## C9 — denied permissions: script-level failure vs. execution-level success -/

/-- C9: under the default (all-denied) permission set, when the sandboxed
script handles its own capability failure — reporting it on stdout and
exiting 0, as the repository's tests do — the execution-level result is
`success = true` and surfaces the script's captured output as `result`;
only a traversal path at the `executeFile` boundary fails instead with the
`SecurityViolation`, independent of (hence before) any subprocess run. -/
theorem c9_denied_permissions_execution_success (config : SandboxConfig)
    (options : ExecutionOptions) (filePath stdout stderr : String)
    (memoryUsed : Nat) (outcome : SubprocessOutcome) (startTime now : Nat)
    (_hperm : config.permissions = deniedAll) (_hopt : options.permissions = none) :
    (validateFilePath filePath = .ok () →
      executeFile config filePath options (.exited 0 false stdout stderr memoryUsed)
          startTime now =
        .ok { success := true, result := some (parseStdout stdout), error := none
              metrics := { duration := now - startTime, memoryUsed := memoryUsed
                           apiCallCount := countApiCalls stdout } }) ∧
    (containsSubstr filePath ".." = true →
      executeFile config filePath options outcome startTime now =
        .ok (failureResult
          (.securityError "Invalid file path: path traversal not allowed"
            "path_traversal")
          (now - startTime))) := by
  constructor
  · intro hv
    simp [executeFile, hv, executeSubprocess]
  · intro h
    simp [executeFile, validateFilePath, h]

/-- Witness for C9: a script that caught its own permission denial and
printed it, and a traversal attempt. -/
theorem c9_denied_permissions_execution_success_witness :
    executeFile cfg0 "script.ts" noOptions
        (.exited 0 false "PermissionDenied: requires net access" "" 2048) 0 7 =
      .ok { success := true
            result := some (parseStdout "PermissionDenied: requires net access")
            error := none
            metrics := { duration := 7, memoryUsed := 2048
                         apiCallCount := countApiCalls "PermissionDenied: requires net access" } } ∧
    executeFile cfg0 "../../secret.ts" noOptions (.exited 0 false "" "" 0) 0 7 =
      .ok (failureResult
        (.securityError "Invalid file path: path traversal not allowed"
          "path_traversal") 7) :=
  ⟨(c9_denied_permissions_execution_success cfg0 noOptions "script.ts"
      "PermissionDenied: requires net access" "" 2048 (.exited 0 false "" "" 0) 0 7
      rfl rfl).1 rfl,
   (c9_denied_permissions_execution_success cfg0 noOptions "../../secret.ts"
      "" "" 0 (.exited 0 false "" "" 0) 0 7 rfl rfl).2 (by decide)⟩

/-! ## C7 — middleware short-circuit -/

/-- C7: a middleware stage that produces its outcome without invoking
`next` determines the pipeline result from its index on: the result is the
stage's value `r`, fixed independently of every later stage and of the
terminal dispatch (so neither runs); and `intercept` returns exactly that
value. -/
theorem c7_middleware_short_circuit :
    (∀ (pre post : List Middleware) (mw : Middleware)
        (dispatch : CallContext → CallRes) (context : CallContext) (r : CallRes),
      (∀ next, mw context next = r) →
      executeMiddlewarePipeline dispatch (pre ++ mw :: post) context pre.length = r) ∧
    (∀ (st : RegState) (rpc : String → String → Value → Except Err Value)
        (mw : Middleware) (rest : List Middleware) (target method : String)
        (args : List Value) (timestamp : Nat) (callId : String) (r : CallRes),
      (∀ next, mw { target := target, method := method, args := args
                    timestamp := timestamp, callId := callId } next = r) →
      intercept st rpc (mw :: rest) target method args timestamp callId = r) := by
  have hmain : ∀ (pre post : List Middleware) (mw : Middleware)
      (dispatch : CallContext → CallRes) (context : CallContext) (r : CallRes),
      (∀ next, mw context next = r) →
      executeMiddlewarePipeline dispatch (pre ++ mw :: post) context pre.length = r := by
    intro pre post mw dispatch context r h
    rw [executeMiddlewarePipeline]
    have hlen : pre.length < (pre ++ mw :: post).length := by
      simp
    rw [dif_pos hlen]
    have hget : (pre ++ mw :: post).get ⟨pre.length, hlen⟩ = mw := by
      have hx : (pre ++ mw :: post)[pre.length] = mw := by
        rw [List.getElem_append_right (le_refl pre.length)]
        simp
      simpa [List.get_eq_getElem] using hx
    rw [hget]
    exact h _
  refine ⟨hmain, ?_⟩
  intro st rpc mw rest target method args timestamp callId r h
  have := hmain [] rest mw (executeCall st rpc)
    { target := target, method := method, args := args
      timestamp := timestamp, callId := callId } r h
  simpa [intercept] using this

/-- Witness for C7: a two-stage pipeline whose first stage short-circuits;
the second stage and the dispatch are never consulted. -/
theorem c7_middleware_short_circuit_witness :
    executeMiddlewarePipeline dispatchW [mwShort, mwForward] ctxW 0 =
      .ok (.str "short-circuited") ∧
    intercept stCall rpcW [mwShort] "a" "t1" [] 0 "call_1" =
      .ok (.str "short-circuited") :=
  ⟨by
    have h := c7_middleware_short_circuit.1 [] [mwForward] mwShort dispatchW ctxW
      (.ok (.str "short-circuited")) (fun _ => rfl)
    simpa using h,
   c7_middleware_short_circuit.2 stCall rpcW mwShort [] "a" "t1" [] 0 "call_1"
     (.ok (.str "short-circuited")) (fun _ => rfl)⟩

/-! ## C8 — `connectAll` aggregates failures -/

theorem loadToolSchemasPure_clients (st : RegState) (serverId : String)
    (catalog : List ToolSchema) :
    (loadToolSchemasPure st serverId catalog).clients = st.clients := by
  unfold loadToolSchemasPure
  split <;> rfl

theorem connectAllStep_clients_preserved
    (connectOutcome : String → Except Err Unit)
    (catalogOutcome : String → Except Err (List ToolSchema))
    (st : RegState) (serverId otherId : String)
    (h : mapGet st.clients otherId = some true) :
    mapGet ((connectAllStep connectOutcome catalogOutcome st serverId).1).clients
      otherId = some true := by
  unfold connectAllStep
  cases hco : connectOutcome serverId with
  | error e => simpa using h
  | ok _ =>
      have hset : mapGet (mapSet st.clients serverId true) otherId = some true := by
        by_cases hs : serverId = otherId
        · subst hs
          simp [mapGet_mapSet_self]
        · rw [mapGet_mapSet_ne _ _ _ _ (fun hh => hs hh.symm)]
          exact h
      cases hcat : catalogOutcome serverId with
      | error e => simpa using hset
      | ok catalog => simpa [loadToolSchemasPure_clients] using hset

theorem connectAllStep_sets_connected
    (connectOutcome : String → Except Err Unit)
    (catalogOutcome : String → Except Err (List ToolSchema))
    (st : RegState) (serverId : String)
    (hok : serverAttemptOk connectOutcome catalogOutcome serverId = true) :
    mapGet ((connectAllStep connectOutcome catalogOutcome st serverId).1).clients
      serverId = some true := by
  unfold serverAttemptOk at hok
  unfold connectAllStep
  cases hco : connectOutcome serverId with
  | error e => rw [hco] at hok; simp at hok
  | ok _ =>
      cases hcat : catalogOutcome serverId with
      | error e => rw [hco, hcat] at hok; simp at hok
      | ok catalog =>
          simp [loadToolSchemasPure_clients, mapGet_mapSet_self]

theorem connectAllStep_fail_iff
    (connectOutcome : String → Except Err Unit)
    (catalogOutcome : String → Except Err (List ToolSchema))
    (st : RegState) (serverId : String) :
    (connectAllStep connectOutcome catalogOutcome st serverId).2 =
      !(serverAttemptOk connectOutcome catalogOutcome serverId) := by
  unfold connectAllStep serverAttemptOk
  cases connectOutcome serverId <;> cases catalogOutcome serverId <;> simp

theorem connectAllFold_failed
    (connectOutcome : String → Except Err Unit)
    (catalogOutcome : String → Except Err (List ToolSchema)) :
    ∀ (ids : List String) (st : RegState) (failed : List String),
      (connectAllFold connectOutcome catalogOutcome ids st failed).2 =
        failed ++ ids.filter
          (fun sid => !(serverAttemptOk connectOutcome catalogOutcome sid)) := by
  intro ids
  induction ids with
  | nil => intro st failed; simp [connectAllFold]
  | cons sid rest ih =>
      intro st failed
      rw [connectAllFold, ih, connectAllStep_fail_iff]
      cases h : serverAttemptOk connectOutcome catalogOutcome sid <;>
        simp [h, List.filter_cons]

theorem connectAllFold_connected
    (connectOutcome : String → Except Err Unit)
    (catalogOutcome : String → Except Err (List ToolSchema)) :
    ∀ (ids : List String) (st : RegState) (failed : List String) (sid : String),
      (mapGet st.clients sid = some true ∨
        (sid ∈ ids ∧ serverAttemptOk connectOutcome catalogOutcome sid = true)) →
      mapGet ((connectAllFold connectOutcome catalogOutcome ids st failed).1).clients
        sid = some true := by
  intro ids
  induction ids with
  | nil =>
      intro st failed sid h
      rcases h with h | ⟨hmem, _⟩
      · simpa [connectAllFold] using h
      · simp at hmem
  | cons sid0 rest ih =>
      intro st failed sid h
      rw [connectAllFold]
      apply ih
      rcases h with h | ⟨hmem, hok⟩
      · exact Or.inl (connectAllStep_clients_preserved _ _ _ _ _ h)
      · rcases List.mem_cons.mp hmem with heq | hmem'
        · subst heq
          exact Or.inl (connectAllStep_sets_connected _ _ _ _ hok)
        · exact Or.inr ⟨hmem', hok⟩

/-- C8: `connectAll` attempts every backend independently — each backend
whose own connect and catalog fetch succeed ends up connected no matter
which others failed; it throws nothing exactly when no backend failed; and
when some failed it throws a single aggregate `ConnectionError` listing
exactly the failed ids. -/
theorem c8_connectAll_aggregate (st : RegState)
    (connectOutcome : String → Except Err Unit)
    (catalogOutcome : String → Except Err (List ToolSchema)) :
    ((connectAll st connectOutcome catalogOutcome).1 = none ↔
      (st.clients.map Prod.fst).filter
        (fun sid => !(serverAttemptOk connectOutcome catalogOutcome sid)) = []) ∧
    ((st.clients.map Prod.fst).filter
        (fun sid => !(serverAttemptOk connectOutcome catalogOutcome sid)) ≠ [] →
      (connectAll st connectOutcome catalogOutcome).1 =
        some (.connectionError
          ("Failed to connect to servers: " ++ String.intercalate ", "
            ((st.clients.map Prod.fst).filter
              (fun sid => !(serverAttemptOk connectOutcome catalogOutcome sid))))
          none)) ∧
    (∀ sid, sid ∈ st.clients.map Prod.fst →
      serverAttemptOk connectOutcome catalogOutcome sid = true →
      mapGet ((connectAll st connectOutcome catalogOutcome).2).clients sid =
        some true) := by
  have hfold := connectAllFold_failed connectOutcome catalogOutcome
    (st.clients.map Prod.fst) st []
  rw [List.nil_append] at hfold
  refine ⟨?_, ?_, ?_⟩
  · simp only [connectAll]
    rw [hfold]
    cases hf : (st.clients.map Prod.fst).filter
        (fun sid => !(serverAttemptOk connectOutcome catalogOutcome sid)) with
    | nil => simp [hf]
    | cons a l => simp [hf]
  · intro hne
    simp only [connectAll]
    rw [hfold]
    cases hf : (st.clients.map Prod.fst).filter
        (fun sid => !(serverAttemptOk connectOutcome catalogOutcome sid)) with
    | nil => exact absurd hf hne
    | cons a l => simp [hf]
  · intro sid hmem hok
    simp only [connectAll]
    cases hf : ((connectAllFold connectOutcome catalogOutcome
        (st.clients.map Prod.fst) st []).2).isEmpty <;>
      simpa [hf] using
        connectAllFold_connected connectOutcome catalogOutcome
          (st.clients.map Prod.fst) st [] sid (Or.inr ⟨hmem, hok⟩)

/-- Witness for C8: backend `b` fails, backend `a` still connects and the
aggregate error names exactly `b`. -/
theorem c8_connectAll_aggregate_witness :
    (connectAll stTwo coW catW).1 =
      some (.connectionError "Failed to connect to servers: b" none) ∧
    mapGet ((connectAll stTwo coW catW).2).clients "a" = some true :=
  ⟨(c8_connectAll_aggregate stTwo coW catW).2.1 (by decide),
   (c8_connectAll_aggregate stTwo coW catW).2.2 "a" (by decide) (by decide)⟩

/-! ## Lemmas about the catalog insertion loop (C1, C10) -/

theorem setName_self (s : ToolSchema) : setName s s.name = s := by
  cases s
  rfl

theorem insertSchemas_nil (m : List (String × ToolSchema)) :
    insertSchemas m [] = m := rfl

theorem insertSchemas_cons (m : List (String × ToolSchema)) (s : ToolSchema)
    (rest : List ToolSchema) :
    insertSchemas m (s :: rest) =
      insertSchemas
        (mapSet m (resolveToolName m s.name s.serverId)
          (setName s (resolveToolName m s.name s.serverId)))
        rest := rfl

theorem resolveToolName_of_none (m : List (String × ToolSchema))
    (name serverId : String) (h : mapGet m name = none) :
    resolveToolName m name serverId = name := by
  simp [resolveToolName, h]

theorem resolveToolName_of_diff (m : List (String × ToolSchema))
    (name serverId : String) (v : ToolSchema) (h : mapGet m name = some v)
    (hs : v.serverId ≠ serverId) :
    resolveToolName m name serverId = serverId ++ "." ++ name := by
  simp [resolveToolName, h, hs]

theorem name_nodup_inj (cat : List ToolSchema)
    (h : (cat.map ToolSchema.name).Nodup) (a b : ToolSchema)
    (ha : a ∈ cat) (hb : b ∈ cat) (hn : a.name = b.name) : a = b := by
  induction cat with
  | nil => simp at ha
  | cons c rest ih =>
      rw [List.map_cons, List.nodup_cons] at h
      rcases List.mem_cons.mp ha with ha0 | ha1
      · rcases List.mem_cons.mp hb with hb0 | hb1
        · rw [ha0, hb0]
        · subst ha0
          exact absurd (hn ▸ List.mem_map_of_mem ToolSchema.name hb1) h.1
      · rcases List.mem_cons.mp hb with hb0 | hb1
        · subst hb0
          exact absurd (hn ▸ List.mem_map_of_mem ToolSchema.name ha1) h.1
        · exact ih h.2 ha1 hb1

theorem mapGet_name_map (cat : List ToolSchema)
    (hnodup : (cat.map ToolSchema.name).Nodup) (s : ToolSchema) (hs : s ∈ cat) :
    mapGet (cat.map (fun t => (t.name, t))) s.name = some s := by
  induction cat with
  | nil => simp at hs
  | cons c rest ih =>
      rw [List.map_cons, List.nodup_cons] at hnodup
      rcases List.mem_cons.mp hs with hs0 | hs1
      · subst hs0
        simp [mapGet]
      · have hne : c.name ≠ s.name := by
          intro heq
          exact hnodup.1 (heq ▸ List.mem_map_of_mem ToolSchema.name hs1)
        simp only [List.map_cons, mapGet, if_neg hne]
        exact ih hnodup.2 hs1

theorem mapGet_keyed_first (cat : List ToolSchema) (f : ToolSchema → String)
    (g : ToolSchema → ToolSchema) (k : String) (sB : ToolSchema)
    (hmem : sB ∈ cat) (hkey : f sB = k)
    (huniq : ∀ s' ∈ cat, f s' = k → s' = sB) :
    mapGet (cat.map (fun s => (f s, g s))) k = some (g sB) := by
  induction cat with
  | nil => simp at hmem
  | cons c rest ih =>
      by_cases hc : f c = k
      · have : c = sB := huniq c (List.mem_cons_self _ _) hc
        subst this
        simp [mapGet, hc]
      · have hmem' : sB ∈ rest := by
          rcases List.mem_cons.mp hmem with h0 | h1
          · exact absurd (h0 ▸ hkey) hc
          · exact h1
        simp only [List.map_cons, mapGet, if_neg hc]
        exact ih hmem' (fun s' hs' => huniq s' (List.mem_cons_of_mem _ hs'))

/-- Loading a catalog whose owner already owns every colliding entry (in
particular, loading into a map holding only that server's entries) inserts
every tool under its bare name, in order. -/
theorem insertSchemas_fresh (cat : List ToolSchema) :
    ∀ (m : List (String × ToolSchema)),
      (∀ s ∈ cat, mapGet m s.name = none) →
      (cat.map ToolSchema.name).Nodup →
      insertSchemas m cat = m ++ cat.map (fun s => (s.name, s)) := by
  induction cat with
  | nil =>
      intro m _ _
      simp [insertSchemas]
  | cons s rest ih =>
      intro m hfresh hnodup
      rw [List.map_cons, List.nodup_cons] at hnodup
      have hm0 : mapGet m s.name = none := hfresh s (List.mem_cons_self _ _)
      rw [insertSchemas_cons, resolveToolName_of_none m s.name s.serverId hm0,
        setName_self, mapSet_fresh m s.name s hm0]
      rw [ih (m ++ [(s.name, s)]) ?hfresh2 hnodup.2]
      · simp
      case hfresh2 =>
        intro s' hs'
        rw [mapGet_append]
        rw [hfresh s' (List.mem_cons_of_mem _ hs')]
        have hne : s.name ≠ s'.name := by
          intro heq
          exact hnodup.1 (heq ▸ List.mem_map_of_mem ToolSchema.name hs')
        simp [mapGet, hne]

/-- Loading the second server's catalog over a map in which every bare
name it could hit is owned by a different server: every tool lands at its
`keyFor` key (namespaced exactly when the bare name is taken), in order,
with its `name` field rewritten. -/
theorem insertSchemas_second (cat : List ToolSchema) :
    ∀ (m : List (String × ToolSchema)) (serverB : String),
      (∀ s ∈ cat, s.serverId = serverB) →
      (∀ s ∈ cat, ∀ v, mapGet m s.name = some v → v.serverId ≠ serverB) →
      (∀ s ∈ cat, mapGet m (serverB ++ "." ++ s.name) = none) →
      (cat.map ToolSchema.name).Nodup →
      (∀ s ∈ cat, (serverB ++ "." ++ s.name) ∉ cat.map ToolSchema.name) →
      insertSchemas m cat =
        m ++ cat.map (fun s => (keyFor m serverB s, setName s (keyFor m serverB s))) := by
  induction cat with
  | nil =>
      intro m serverB _ _ _ _ _
      simp [insertSchemas]
  | cons s rest ih =>
      intro m serverB h1 h2 h3 h4 h5
      rw [List.map_cons, List.nodup_cons] at h4
      have hsid : s.serverId = serverB := h1 s (List.mem_cons_self _ _)
      have hBs : (serverB ++ "." ++ s.name) ∉ (s :: rest).map ToolSchema.name :=
        h5 s (List.mem_cons_self _ _)
      cases hm0 : mapGet m s.name with
      | some v =>
          have hkeyFor : keyFor m serverB s = serverB ++ "." ++ s.name := by
            simp [keyFor, hm0]
          have hres : resolveToolName m s.name s.serverId = serverB ++ "." ++ s.name := by
            rw [hsid]
            exact resolveToolName_of_diff m s.name serverB v hm0
              (h2 s (List.mem_cons_self _ _) v hm0)
          have hfreshkey : mapGet m (serverB ++ "." ++ s.name) = none :=
            h3 s (List.mem_cons_self _ _)
          rw [insertSchemas_cons, hres, mapSet_fresh _ _ _ hfreshkey]
          have hstable : ∀ t ∈ rest,
              mapGet (m ++ [(serverB ++ "." ++ s.name,
                setName s (serverB ++ "." ++ s.name))]) t.name = mapGet m t.name := by
            intro t ht
            rw [mapGet_append]
            cases hq : mapGet m t.name with
            | some w => simp
            | none =>
                have hne : (serverB ++ "." ++ s.name) ≠ t.name := by
                  intro heq
                  exact hBs (heq ▸ List.mem_map_of_mem ToolSchema.name
                    (List.mem_cons_of_mem _ ht))
                simp [mapGet, hne]
          rw [ih (m ++ [(serverB ++ "." ++ s.name,
              setName s (serverB ++ "." ++ s.name))]) serverB ?ha ?hb ?hc h4.2 ?hd]
          · have hcong : rest.map (fun t =>
                (keyFor (m ++ [(serverB ++ "." ++ s.name,
                  setName s (serverB ++ "." ++ s.name))]) serverB t,
                 setName t (keyFor (m ++ [(serverB ++ "." ++ s.name,
                  setName s (serverB ++ "." ++ s.name))]) serverB t))) =
                rest.map (fun t => (keyFor m serverB t, setName t (keyFor m serverB t))) := by
              apply List.map_congr_left
              intro t ht
              have hs' := hstable t ht
              simp [keyFor, hs']
            rw [hcong, List.map_cons, hkeyFor]
            simp
          case ha =>
            intro t ht
            exact h1 t (List.mem_cons_of_mem _ ht)
          case hb =>
            intro t ht v' hv'
            rw [hstable t ht] at hv'
            exact h2 t (List.mem_cons_of_mem _ ht) v' hv'
          case hc =>
            intro t ht
            rw [mapGet_append, h3 t (List.mem_cons_of_mem _ ht)]
            have hne : (serverB ++ "." ++ s.name) ≠ (serverB ++ "." ++ t.name) := by
              intro heq
              have hnames := string_append_cancel_left (serverB ++ ".") s.name t.name heq
              exact h4.1 (hnames ▸ List.mem_map_of_mem ToolSchema.name ht)
            simp [mapGet, hne]
          case hd =>
            intro t ht
            have hnot := h5 t (List.mem_cons_of_mem _ ht)
            rw [List.map_cons] at hnot
            intro hmem'
            exact hnot (List.mem_cons_of_mem _ hmem')
      | none =>
          have hkeyFor : keyFor m serverB s = s.name := by
            simp [keyFor, hm0]
          have hres : resolveToolName m s.name s.serverId = s.name :=
            resolveToolName_of_none _ _ _ hm0
          rw [insertSchemas_cons, hres, setName_self, mapSet_fresh _ _ _ hm0]
          have hstable : ∀ t ∈ rest,
              mapGet (m ++ [(s.name, s)]) t.name = mapGet m t.name := by
            intro t ht
            rw [mapGet_append]
            cases hq : mapGet m t.name with
            | some w => simp
            | none =>
                have hne : s.name ≠ t.name := by
                  intro heq
                  exact h4.1 (heq ▸ List.mem_map_of_mem ToolSchema.name ht)
                simp [mapGet, hne]
          rw [ih (m ++ [(s.name, s)]) serverB ?ha ?hb ?hc h4.2 ?hd]
          · have hcong : rest.map (fun t =>
                (keyFor (m ++ [(s.name, s)]) serverB t,
                 setName t (keyFor (m ++ [(s.name, s)]) serverB t))) =
                rest.map (fun t => (keyFor m serverB t, setName t (keyFor m serverB t))) := by
              apply List.map_congr_left
              intro t ht
              have hs' := hstable t ht
              simp [keyFor, hs']
            rw [hcong, List.map_cons, hkeyFor]
            rw [setName_self]
            simp
          case ha =>
            intro t ht
            exact h1 t (List.mem_cons_of_mem _ ht)
          case hb =>
            intro t ht v' hv'
            rw [hstable t ht] at hv'
            exact h2 t (List.mem_cons_of_mem _ ht) v' hv'
          case hc =>
            intro t ht
            rw [mapGet_append, h3 t (List.mem_cons_of_mem _ ht)]
            have hne : s.name ≠ (serverB ++ "." ++ t.name) := by
              intro heq
              have hnot := h5 t (List.mem_cons_of_mem _ ht)
              rw [List.map_cons] at hnot
              exact hnot (List.mem_cons.mpr (Or.inl heq.symm))
            simp [mapGet, hne]
          case hd =>
            intro t ht
            have hnot := h5 t (List.mem_cons_of_mem _ ht)
            rw [List.map_cons] at hnot
            intro hmem'
            exact hnot (List.mem_cons_of_mem _ hmem')

/-! ## C1 — first-write-wins collision resolution -/

/-- C1 (amended): the per-tool insertion rule is exactly as claimed (bare
name when absent, `<backendId>.<name>` when taken by a different backend);
and in the two-backend scenario — provided each catalog's names are
distinct and no catalog name coincides with a namespaced key
`<secondId>.<name>` of the second backend — the first-connected backend
keeps every bare name, the second backend's colliding tool is reachable
only under the prefixed key, and the flattened map size is the sum of the
catalog sizes. -/
theorem c1_first_write_wins (A B : String) (catA catB : List ToolSchema)
    (hAB : A ≠ B)
    (hA1 : ∀ s ∈ catA, s.serverId = A)
    (hA2 : (catA.map ToolSchema.name).Nodup)
    (hB1 : ∀ s ∈ catB, s.serverId = B)
    (hB2 : (catB.map ToolSchema.name).Nodup)
    (hX1 : ∀ s ∈ catB, (B ++ "." ++ s.name) ∉ catA.map ToolSchema.name)
    (hX2 : ∀ s ∈ catB, (B ++ "." ++ s.name) ∉ catB.map ToolSchema.name) :
    (∀ (m : List (String × ToolSchema)) (name serverId : String),
      (mapGet m name = none → resolveToolName m name serverId = name) ∧
      (∀ ex, mapGet m name = some ex → ex.serverId ≠ serverId →
        resolveToolName m name serverId = serverId ++ "." ++ name)) ∧
    (∀ s ∈ catA,
      mapGet (twoServerLoad A B catA catB).toolSchemas s.name = some s) ∧
    (∀ n, n ∈ catA.map ToolSchema.name → n ∈ catB.map ToolSchema.name →
      (∀ v, mapGet (twoServerLoad A B catA catB).toolSchemas n = some v →
        v.serverId = A) ∧
      (∃ sB, sB ∈ catB ∧ sB.name = n ∧
        mapGet (twoServerLoad A B catA catB).toolSchemas (B ++ "." ++ n) =
          some (setName sB (B ++ "." ++ n)))) ∧
    (twoServerLoad A B catA catB).toolSchemas.length =
      catA.length + catB.length := by
  -- the first backend's flattened entries
  have hkeys : (catA.map (fun s => (s.name, s))).map Prod.fst =
      catA.map ToolSchema.name := by
    simp [List.map_map]
  have hmemA : ∀ (k : String) (v : ToolSchema),
      (k, v) ∈ catA.map (fun s => (s.name, s)) → v ∈ catA ∧ k = v.name := by
    intro k v h
    rcases List.mem_map.mp h with ⟨s, hs, heq⟩
    rcases Prod.mk.injEq _ _ _ _ ▸ heq with ⟨hk, hv⟩
    subst hv
    exact ⟨hs, hk.symm⟩
  have h2' : ∀ s ∈ catB, ∀ v,
      mapGet (catA.map (fun s => (s.name, s))) s.name = some v →
      v.serverId ≠ B := by
    intro s _ v hv
    obtain ⟨hvA, _⟩ := hmemA _ _ (mapGet_mem _ _ _ hv)
    rw [hA1 v hvA]
    exact hAB
  have h3' : ∀ s ∈ catB,
      mapGet (catA.map (fun s => (s.name, s))) (B ++ "." ++ s.name) = none := by
    intro s hs
    rw [mapGet_eq_none_iff, hkeys]
    exact hX1 s hs
  -- normal form of the schema map after both connects
  have hts : (twoServerLoad A B catA catB).toolSchemas =
      catA.map (fun s => (s.name, s)) ++
      catB.map (fun s =>
        (keyFor (catA.map (fun t => (t.name, t))) B s,
         setName s (keyFor (catA.map (fun t => (t.name, t))) B s))) := by
    have e0 : mapGet ([(A, false), (B, false)] : List (String × Bool)) A =
        some false := by
      simp [mapGet]
    have e0s : mapSet ([(A, false), (B, false)] : List (String × Bool)) A true =
        [(A, true), (B, false)] := by
      simp [mapSet]
    have eg1 : mapGet ([(A, true), (B, false)] : List (String × Bool)) A =
        some true := by
      simp [mapGet]
    have hinsA : insertSchemas [] catA = catA.map (fun s => (s.name, s)) := by
      have := insertSchemas_fresh catA [] (fun s _ => rfl) hA2
      simpa using this
    have e1 : (connectServer
        { clients := [(A, false), (B, false)], serverConfigs := []
          toolSchemas := [] } A (.ok ()) (.ok catA)).2 =
        { clients := [(A, true), (B, false)], serverConfigs := []
          toolSchemas := catA.map (fun s => (s.name, s)) } := by
      simp [connectServer, e0, e0s, loadToolSchemasPure, eg1, hinsA]
    have e3 : mapGet ([(A, true), (B, false)] : List (String × Bool)) B =
        some false := by
      simp [mapGet, hAB]
    have e3s : mapSet ([(A, true), (B, false)] : List (String × Bool)) B true =
        [(A, true), (B, true)] := by
      simp [mapSet, hAB]
    have eg2 : mapGet ([(A, true), (B, true)] : List (String × Bool)) B =
        some true := by
      simp [mapGet, hAB]
    have hfilter : (catA.map (fun s => (s.name, s))).filter
        (fun p => !(decide (p.2.serverId = B))) = catA.map (fun s => (s.name, s)) := by
      apply List.filter_eq_self.mpr
      intro p hp
      obtain ⟨hpA, _⟩ := hmemA p.1 p.2 (by simpa using hp)
      simp [hA1 p.2 hpA, hAB]
    have hinsB : insertSchemas (catA.map (fun s => (s.name, s))) catB =
        catA.map (fun s => (s.name, s)) ++
        catB.map (fun s =>
          (keyFor (catA.map (fun t => (t.name, t))) B s,
           setName s (keyFor (catA.map (fun t => (t.name, t))) B s))) :=
      insertSchemas_second catB (catA.map (fun s => (s.name, s))) B hB1 h2' h3' hB2 hX2
    have e4 : (connectServer
        { clients := [(A, true), (B, false)], serverConfigs := []
          toolSchemas := catA.map (fun s => (s.name, s)) } B (.ok ()) (.ok catB)).2 =
        { clients := [(A, true), (B, true)], serverConfigs := []
          toolSchemas := catA.map (fun s => (s.name, s)) ++
            catB.map (fun s =>
              (keyFor (catA.map (fun t => (t.name, t))) B s,
               setName s (keyFor (catA.map (fun t => (t.name, t))) B s))) } := by
      simp [connectServer, e3, e3s, loadToolSchemasPure, eg2, hfilter, hinsB]
    simp only [twoServerLoad]
    rw [e1, e4]
  -- the schema the first backend stored under a shared bare name
  have hgetA : ∀ s ∈ catA,
      mapGet (catA.map (fun t => (t.name, t))) s.name = some s := by
    intro s hs
    exact mapGet_name_map catA hA2 s hs
  refine ⟨?_, ?_, ?_, ?_⟩
  · intro m name serverId
    exact ⟨fun h => resolveToolName_of_none m name serverId h,
           fun ex h hne => resolveToolName_of_diff m name serverId ex h hne⟩
  · intro s hs
    rw [hts, mapGet_append, hgetA s hs]
  · intro n hnA hnB
    obtain ⟨sA, hsA, hsAname⟩ := List.mem_map.mp hnA
    obtain ⟨sB, hsB, hsBname⟩ := List.mem_map.mp hnB
    have hgA : mapGet (catA.map (fun t => (t.name, t))) n = some sA := by
      rw [← hsAname]
      exact hgetA sA hsA
    constructor
    · intro v hv
      rw [hts, mapGet_append, hgA] at hv
      simp at hv
      rw [← hv]
      exact hA1 sA hsA
    · have hgB : mapGet (catA.map (fun t => (t.name, t))) sB.name = some sA := by
        rw [hsBname]
        exact hgA
      have hkeysB : keyFor (catA.map (fun t => (t.name, t))) B sB =
          B ++ "." ++ n := by
        simp [keyFor, hsBname, hgA]
      have huniq : ∀ s' ∈ catB,
          keyFor (catA.map (fun t => (t.name, t))) B s' = B ++ "." ++ n →
          s' = sB := by
        intro s' hs' hk
        cases hq : mapGet (catA.map (fun t => (t.name, t))) s'.name with
        | some w =>
            rw [show keyFor (catA.map (fun t => (t.name, t))) B s' =
                B ++ "." ++ s'.name from by simp [keyFor, hq]] at hk
            have hnn := string_append_cancel_left (B ++ ".") s'.name n hk
            exact name_nodup_inj catB hB2 s' sB hs' hsB (hnn.trans hsBname.symm)
        | none =>
            rw [show keyFor (catA.map (fun t => (t.name, t))) B s' = s'.name from by
              simp [keyFor, hq]] at hk
            have hx := hX2 sB hsB
            rw [hsBname] at hx
            exact absurd (hk ▸ List.mem_map_of_mem ToolSchema.name hs') hx
      refine ⟨sB, hsB, hsBname, ?_⟩
      rw [hts, mapGet_append]
      have hnone : mapGet (catA.map (fun s => (s.name, s))) (B ++ "." ++ n) =
          none := by
        rw [mapGet_eq_none_iff, hkeys, ← hsBname]
        exact hX1 sB hsB
      rw [hnone]
      have hfirst := mapGet_keyed_first catB
        (fun s => keyFor (catA.map (fun t => (t.name, t))) B s)
        (fun s => setName s (keyFor (catA.map (fun t => (t.name, t))) B s))
        (B ++ "." ++ n) sB hsB hkeysB huniq
      simpa [hkeysB] using hfirst
  · rw [hts]
    simp

/-- C1 counterexample to the unconditional size claim: `alpha` publishes
`getData` and a tool literally named `beta.getData`; `beta` publishes
`getData`.  Both backends define `getData`, yet after both connect the
flattened map holds 2 entries, not the catalog sum 3 — `beta`'s namespaced
`getData` overwrote `alpha`'s tool named `beta.getData`. -/
theorem c1_no_entry_lost_counterexample :
    (twoServerLoad "alpha" "beta" catACE catBCE).toolSchemas.length = 2 ∧
    catACE.length + catBCE.length = 3 := by
  constructor
  · rfl
  · rfl

/-- Witness for the amended C1 on concrete colliding catalogs. -/
theorem c1_first_write_wins_witness :
    (twoServerLoad "alpha" "beta" catAW catBW).toolSchemas.length =
      catAW.length + catBW.length :=
  (c1_first_write_wins "alpha" "beta" catAW catBW (by decide) (by decide)
    (by decide) (by decide) (by decide) (by decide) (by decide)).2.2.2

/-! ## C10 — every stored schema's `name` equals its map key -/

/-- C10: the insertion loop stores each schema under its resolved key with
the `name` field rewritten to that key, so the name-equals-key invariant
holds and is preserved by every catalog reload; a collision-namespaced
entry's stored name is the prefixed key, which differs from the original
bare name; consequently `getToolSchemasForServer` returns schemas whose
`name` is exactly their (possibly prefixed) map key, and the proxy's `get`
trap resolves those rewritten names as direct tool names. -/
theorem c10_schema_name_equals_key :
    (∀ (m : List (String × ToolSchema)) (cat : List ToolSchema),
      schemaMapInv m → schemaMapInv (insertSchemas m cat)) ∧
    (∀ (st : RegState) (serverId : String) (cat : List ToolSchema),
      schemaMapInv st.toolSchemas →
      schemaMapInv (loadToolSchemasPure st serverId cat).toolSchemas) ∧
    (∀ (m : List (String × ToolSchema)) (s ex : ToolSchema),
      mapGet m s.name = some ex → ex.serverId ≠ s.serverId →
      resolveToolName m s.name s.serverId = s.serverId ++ "." ++ s.name ∧
      (setName s (s.serverId ++ "." ++ s.name)).name = s.serverId ++ "." ++ s.name ∧
      s.serverId ++ "." ++ s.name ≠ s.name) ∧
    (∀ (st : RegState) (serverId : String), schemaMapInv st.toolSchemas →
      ∀ s, s ∈ getToolSchemasForServer st serverId → (s.name, s) ∈ st.toolSchemas) ∧
    (∀ (st : RegState) (namespaceName : String) (config : ProxyConfig)
        (property : String),
      property ≠ "__namespace" → property ≠ "__tools" → property ≠ "toString" →
      property ≠ "valueOf" → property ∉ config.propertyHandlerNames →
      property ∈ proxyToolNames st namespaceName →
      proxyGet st namespaceName config property =
        .toolCall namespaceName property) := by
  have hins : ∀ (cat : List ToolSchema) (m : List (String × ToolSchema)),
      schemaMapInv m → schemaMapInv (insertSchemas m cat) := by
    intro cat
    induction cat with
    | nil =>
        intro m h
        simpa [insertSchemas] using h
    | cons s rest ih =>
        intro m h
        rw [insertSchemas_cons]
        apply ih
        intro p hp
        rcases mapSet_mem_cases _ _ _ _ hp with h1 | h2
        · rw [h1]
          rfl
        · exact h p h2
  refine ⟨fun m cat h => hins cat m h, ?_, ?_, ?_, ?_⟩
  · intro st serverId cat h
    cases hc : mapGet st.clients serverId with
    | none => simpa [loadToolSchemasPure, hc] using h
    | some b =>
        cases b with
        | false => simpa [loadToolSchemasPure, hc] using h
        | true =>
            simp only [loadToolSchemasPure, hc]
            apply hins
            intro p hp
            exact h p (List.mem_of_mem_filter hp)
  · intro m s ex hget hne
    refine ⟨?_, rfl, string_dot_prefix_ne s.serverId s.name⟩
    simp [resolveToolName, hget, hne]
  · intro st serverId hinv s hs
    have hs1 : s ∈ st.toolSchemas.map Prod.snd :=
      List.mem_of_mem_filter hs
    rcases List.mem_map.mp hs1 with ⟨p, hp, hps⟩
    have hname := hinv p hp
    have : p = (s.name, s) := by
      rcases p with ⟨k, v⟩
      simp only at hps
      subst hps
      simp only at hname
      rw [hname]
    rw [← this]
    exact hp
  · intro st namespaceName config property h1 h2 h3 h4 h5 h6
    simp [proxyGet, h1, h2, h3, h4, h5, h6]

/-- Witness for C10: the invariant holds after inserting a colliding
catalog, and the proxy trap resolves a known (rewritten) name directly. -/
theorem c10_schema_name_equals_key_witness :
    schemaMapInv (insertSchemas stCall.toolSchemas catBCE) ∧
    proxyGet stCall "a" { includeMetadata := false, propertyHandlerNames := [] }
      "t1" = .toolCall "a" "t1" :=
  ⟨c10_schema_name_equals_key.1 stCall.toolSchemas catBCE
     (by simp [schemaMapInv, stCall, schemaT1, schemaT2, schemaT3]),
   c10_schema_name_equals_key.2.2.2.2 stCall "a"
     { includeMetadata := false, propertyHandlerNames := [] } "t1"
     (by decide) (by decide) (by decide) (by decide) (by decide) (by decide)⟩

end MCE
